import Mathlib

/-!
Shallow embedding of `src/codebase/crazy-hard-problems/P1-arithmetic-expression-target.cpp`.

The C++ program enumerates every fully parenthesized arithmetic expression
over a sequence of integers (elements kept in their original order), then
keeps the string form of every expression that evaluates to a target value.

Modelling decisions:
- C++ `int` is modelled as `Int`; signed overflow is undefined behaviour in
  the source, and no claim depends on wrapped arithmetic.
- `OperatorNode::evaluate` throws `invalid_argument` on an operator outside
  the fixed set, so `evaluate` returns `Except Unit Int`; the division branch
  uses C++ truncating division (`Int.tdiv`) with `INT_MAX` as the
  division-by-zero sentinel, exactly as in line 81 of the source.
- `generateExpressions` takes `Int` indices like the C++ `int` parameters.
  `findExpressions` passes `nums.size() - 1` converted to `int`; for an empty
  vector that conversion yields `-1` (on the usual two's-complement targets),
  which is modelled as `(nums.length : Int) - 1`.  An in-bounds `nums[start]`
  reads the element at `start`; an out-of-bounds read is undefined behaviour
  in the source and is modelled as the default value `0` via `List.getD`.
- The recursion of `generateExpressions` is embedded with an explicit fuel
  argument (`genFuel`) so that it is structural and kernel-reducible;
  `generateExpressions` supplies fuel that is proven sufficient
  (`genFuel_congr`), recovering the source's recursion equation
  (`generateExpressions_eq`).
- The filtering overload of `generateExpressions` (the loop that evaluates
  each tree and keeps matches) is `generateExpressionsFilter`; an exception
  thrown by `evaluate` inside the loop propagates, hence the `Except` result.
-/

namespace ArithExpr

/-- The operator table `OPERATORS[] = {'+', '-', '*', '/'}` (source line 30). -/
def OPERATORS : List Char := ['+', '-', '*', '/']

/-- `INT_MAX` from `<climits>` for 32-bit `int`. -/
def INT_MAX : Int := 2147483647

/-- The AST node: `NumberNode` (a literal `int`) or `OperatorNode`
(an operator character and two children). -/
inductive ASTNode where
  | num (value : Int)
  | op (oper : Char) (left : ASTNode) (right : ASTNode)
deriving DecidableEq

/-- `evaluate()` (source lines 53-55 and 74-84): a literal returns its value;
an operator node evaluates the left child, then the right child, then applies
the operator.  Division by zero yields `INT_MAX`; an operator outside
`{+,-,*,/}` throws (`Except.error ()`). -/
def evaluate : ASTNode → Except Unit Int
  | .num value => .ok value
  | .op oper l r =>
    match evaluate l with
    | .error err => .error err
    | .ok leftVal =>
      match evaluate r with
      | .error err => .error err
      | .ok rightVal =>
        match oper with
        | '+' => .ok (leftVal + rightVal)
        | '-' => .ok (leftVal - rightVal)
        | '*' => .ok (leftVal * rightVal)
        | '/' => .ok (if rightVal ≠ 0 then Int.tdiv leftVal rightVal else INT_MAX)
        | _ => .error ()

/-- `toString()` (source lines 58-60 and 87-89): decimal rendering for a
literal; `"(" + left + oper + right + ")"` for an operator node. -/
def ASTNode.toString : ASTNode → String
  | .num value => Int.repr value
  | .op oper l r => "(" ++ toString l ++ String.singleton oper ++ toString r ++ ")"

/-- The multiset-with-order of literals at the leaves of a tree, read left to
right.  Used to state that a tree uses every input element exactly once in
the original order. -/
def literals : ASTNode → List Int
  | .num value => [value]
  | .op _ l r => literals l ++ literals r

/-- `true` iff every operator character in the tree is drawn from `OPERATORS`. -/
def opsValid : ASTNode → Bool
  | .num _ => true
  | .op oper l r => OPERATORS.contains oper && opsValid l && opsValid r

/-- Fuel-indexed embedding of `generateExpressions(nums, start, end)`
(source lines 98-124).  With fuel `0` (never reached from
`generateExpressions`) it returns `[]`; otherwise: base case `start == end`
returns one `NumberNode`; the recursive case iterates the split index
`i = start + k` for `k < (end - start).toNat` (i.e. `start <= i < end`,
ascending, and no iterations when `start > end`), combining every left tree
with every right tree under each of the four operators, in the push-back
order of the source's three nested loops. -/
def genFuel (nums : List Int) : Nat → Int → Int → List ASTNode
  | 0, _, _ => []
  | fuel + 1, start, e =>
    if start = e then [ASTNode.num (nums.getD start.toNat 0)]
    else (List.range (e - start).toNat).flatMap (fun k =>
      (genFuel nums fuel start (start + k)).flatMap (fun l =>
        (genFuel nums fuel (start + k + 1) e).flatMap (fun r =>
          OPERATORS.map (fun oper => ASTNode.op oper l r))))

/-- `generateExpressions(nums, start, end)` (source lines 98-124), with
sufficient fuel. -/
def generateExpressions (nums : List Int) (start e : Int) : List ASTNode :=
  genFuel nums ((e - start).toNat + 1) start e

instance : DecidableEq (Except Unit Int) := fun a b =>
  match a, b with
  | .ok x, .ok y => if h : x = y then .isTrue (by simp [h]) else .isFalse (by simp [h])
  | .error _, .error _ => .isTrue (by simp)
  | .ok _, .error _ => .isFalse (by simp)
  | .error _, .ok _ => .isFalse (by simp)

/-- The filtering overload `generateExpressions(nums, start, end, target,
result)` restricted to its loop (source lines 127-138): evaluate each tree in
order and keep the string form of those that evaluate to `target`.  An
exception from `evaluate` propagates out of the loop. -/
def generateExpressionsFilter (target : Int) : List ASTNode → Except Unit (List String)
  | [] => .ok []
  | t :: rest =>
    match evaluate t with
    | .error err => .error err
    | .ok v =>
      match generateExpressionsFilter target rest with
      | .error err => .error err
      | .ok tail => .ok (if v = target then t.toString :: tail else tail)

/-- `findExpressions(nums, target)` (source lines 141-145): run the filtering
overload on the full range `[0, nums.size() - 1]`.  For an empty vector the
`size_t` subtraction wraps and the converted `int` end index is `-1`. -/
def findExpressions (nums : List Int) (target : Int) : Except Unit (List String) :=
  generateExpressionsFilter target (generateExpressions nums 0 ((nums.length : Int) - 1))

/-- Spec-side definition (§4.2 Ordering): the split indices of a range,
ascending from `start` to `end - 1`. -/
def specSplitsAscending (start e : Int) : List Int :=
  (List.range (e - start).toNat).map (fun (k : Nat) => start + k)

theorem flatMap_congr {α β : Type} {l : List α} {f g : α → List β}
    (h : ∀ x ∈ l, f x = g x) : l.flatMap f = l.flatMap g := by
  induction l with
  | nil => rfl
  | cons a as ih =>
    simp only [List.flatMap_cons]
    rw [h a (by simp), ih (fun x hx => h x (by simp [hx]))]

theorem genFuel_congr (nums : List Int) :
    ∀ (f₁ : Nat) (f₂ : Nat) (start e : Int),
      (e - start).toNat < f₁ → (e - start).toNat < f₂ →
      genFuel nums f₁ start e = genFuel nums f₂ start e := by
  intro f₁
  induction f₁ with
  | zero => intro f₂ start e h₁ _; omega
  | succ n ih =>
    intro f₂ start e h₁ h₂
    match f₂, h₂ with
    | m + 1, h₂ =>
      simp only [genFuel]
      split
      · rfl
      · apply flatMap_congr
        intro k hk
        rw [List.mem_range] at hk
        rw [ih m start (start + k) (by omega) (by omega),
          ih m (start + k + 1) e (by omega) (by omega)]

/-- The recursion equation of `generateExpressions`, matching the source's
structure (base case at `start == end`, otherwise the three nested loops over
split index, left tree, right tree, and operator). -/
theorem generateExpressions_eq (nums : List Int) (start e : Int) :
    generateExpressions nums start e =
      if start = e then [ASTNode.num (nums.getD start.toNat 0)]
      else (List.range (e - start).toNat).flatMap (fun k =>
        (generateExpressions nums start (start + k)).flatMap (fun l =>
          (generateExpressions nums (start + k + 1) e).flatMap (fun r =>
            OPERATORS.map (fun oper => ASTNode.op oper l r)))) := by
  conv_lhs => rw [generateExpressions, genFuel]
  split
  · rfl
  · apply flatMap_congr
    intro k hk
    rw [List.mem_range] at hk
    rw [show generateExpressions nums start (start + k)
        = genFuel nums ((e - start).toNat) start (start + k) from
      genFuel_congr nums _ _ _ _ (by omega) (by omega),
      show generateExpressions nums (start + k + 1) e
        = genFuel nums ((e - start).toNat) (start + k + 1) e from
      genFuel_congr nums _ _ _ _ (by omega) (by omega)]

theorem combineRow_length (l : ASTNode) (rs : List ASTNode) :
    (rs.flatMap fun r => OPERATORS.map fun oper => ASTNode.op oper l r).length
      = rs.length * 4 := by
  induction rs with
  | nil => rfl
  | cons r rs ih =>
    simp only [List.flatMap_cons, List.length_append, List.length_cons, ih]
    simp [OPERATORS]
    ring

theorem combine_length (ls rs : List ASTNode) :
    (ls.flatMap fun l => rs.flatMap fun r =>
      OPERATORS.map fun oper => ASTNode.op oper l r).length
      = ls.length * rs.length * 4 := by
  induction ls with
  | nil => simp
  | cons l ls ih =>
    simp only [List.flatMap_cons, List.length_append, List.length_cons, ih,
      combineRow_length]
    ring

theorem literals_genFuel (nums : List Int) :
    ∀ (fuel : Nat) (start e : Int), 0 ≤ start → start ≤ e → e < nums.length →
      ∀ t ∈ genFuel nums fuel start e,
        literals t = (nums.drop start.toNat).take ((e - start).toNat + 1) := by
  intro fuel
  induction fuel with
  | zero => intro start e _ _ _ t ht; simp [genFuel] at ht
  | succ n ih =>
    intro start e h0 hse hlen t ht
    rw [genFuel] at ht
    split at ht
    · next heq =>
      have hn : start.toNat < nums.length := by omega
      simp only [List.mem_singleton] at ht
      subst ht
      rw [literals, List.getD_eq_getElem nums 0 hn, List.drop_eq_getElem_cons hn]
      have h1 : (e - start).toNat + 1 = 1 := by omega
      rw [h1, List.take_succ_cons, List.take_zero]
    · next hne =>
      simp only [List.mem_flatMap, List.mem_range, List.mem_map] at ht
      obtain ⟨k, hk, l, hl, r, hr, oper, _, rfl⟩ := ht
      have hkl : (k : Int) < e - start := by omega
      rw [literals,
        ih start (start + k) h0 (by omega) (by omega) l hl,
        ih (start + k + 1) e (by omega) (by omega) hlen r hr]
      have h1 : (start + k - start).toNat + 1 = k + 1 := by omega
      have h2 : (start + k + 1).toNat = start.toNat + (k + 1) := by omega
      have h3 : (e - start).toNat + 1 = (k + 1) + ((e - (start + k + 1)).toNat + 1) := by
        omega
      have h4 := List.take_add (nums.drop start.toNat) (k + 1)
        ((e - (start + k + 1)).toNat + 1)
      rw [List.drop_drop, ← h3] at h4
      rw [h1, h2]
      exact h4.symm

theorem opsValid_genFuel (nums : List Int) :
    ∀ (fuel : Nat) (start e : Int) (t : ASTNode),
      t ∈ genFuel nums fuel start e → opsValid t = true := by
  intro fuel
  induction fuel with
  | zero => intro start e t ht; simp [genFuel] at ht
  | succ n ih =>
    intro start e t ht
    rw [genFuel] at ht
    split at ht
    · simp only [List.mem_singleton] at ht
      subst ht
      rfl
    · simp only [List.mem_flatMap, List.mem_range, List.mem_map] at ht
      obtain ⟨k, _, l, hl, r, hr, oper, hoper, rfl⟩ := ht
      simp [opsValid, ih _ _ _ hl, ih _ _ _ hr, hoper]

theorem evaluate_ok_of_opsValid :
    ∀ (t : ASTNode), opsValid t = true → ∃ v, evaluate t = Except.ok v := by
  intro t
  induction t with
  | num v => intro _; exact ⟨v, rfl⟩
  | op oper l r ihl ihr =>
    intro h
    simp only [opsValid, Bool.and_eq_true] at h
    obtain ⟨⟨hop, hl⟩, hr⟩ := h
    obtain ⟨lv, hlv⟩ := ihl hl
    obtain ⟨rv, hrv⟩ := ihr hr
    have hmem : oper ∈ OPERATORS := by simpa using hop
    simp only [OPERATORS, List.mem_cons, List.not_mem_nil, or_false] at hmem
    rcases hmem with h | h | h | h <;> subst h
    · exact ⟨lv + rv, by rw [evaluate, hlv, hrv]; rfl⟩
    · exact ⟨lv - rv, by rw [evaluate, hlv, hrv]; rfl⟩
    · exact ⟨lv * rv, by rw [evaluate, hlv, hrv]; rfl⟩
    · exact ⟨if rv ≠ 0 then lv.tdiv rv else INT_MAX, by rw [evaluate, hlv, hrv]; rfl⟩

theorem generateExpressionsFilter_ok_eq (target : Int) :
    ∀ (ts : List ASTNode) (out : List String),
      generateExpressionsFilter target ts = Except.ok out →
      out = (ts.filter (fun t => decide (evaluate t = Except.ok target))).map
        ASTNode.toString := by
  intro ts
  induction ts with
  | nil =>
    intro out h
    simp only [generateExpressionsFilter, Except.ok.injEq] at h
    simp [← h]
  | cons t rest ih =>
    intro out h
    rw [generateExpressionsFilter] at h
    cases hev : evaluate t with
    | error err => rw [hev] at h; cases h
    | ok v =>
      rw [hev] at h
      cases hrec : generateExpressionsFilter target rest with
      | error err => rw [hrec] at h; cases h
      | ok tail =>
        rw [hrec] at h
        simp only [Except.ok.injEq] at h
        rw [List.filter_cons]
        by_cases hvt : v = target
        · subst hvt
          simp [hev, ← h, ih tail hrec]
        · have : ¬(evaluate t = Except.ok target) := by
            rw [hev]; intro hc; exact hvt (by injection hc)
          simp [this, ← h, hvt, ih tail hrec]

theorem evaluate_op_eq (oper : Char) (l r : ASTNode) (lv rv : Int)
    (hl : evaluate l = Except.ok lv) (hr : evaluate r = Except.ok rv) :
    evaluate (ASTNode.op oper l r) =
      match oper with
      | '+' => Except.ok (lv + rv)
      | '-' => Except.ok (lv - rv)
      | '*' => Except.ok (lv * rv)
      | '/' => Except.ok (if rv ≠ 0 then Int.tdiv lv rv else INT_MAX)
      | _ => Except.error () := by
  rw [evaluate, hl, hr]

theorem evaluate_ne_error_of_mem_gen (nums : List Int) (start e : Int)
    (t : ASTNode) (ht : t ∈ generateExpressions nums start e) :
    opsValid t = true ∧ evaluate t ≠ Except.error () := by
  rw [generateExpressions] at ht
  have hov := opsValid_genFuel nums _ _ _ t ht
  refine ⟨hov, ?_⟩
  obtain ⟨v, hv⟩ := evaluate_ok_of_opsValid t hov
  simp [hv]

theorem tdiv_eq_sign_mul (a b : Int) :
    a.tdiv b = a.sign * b.sign * ((a.natAbs / b.natAbs : Nat) : Int) := by
  rcases a with m | m <;> rcases b with n | n
  · rcases m with _ | m <;> rcases n with _ | n <;>
      simp [Int.tdiv, Int.sign, Int.natAbs]
  · rcases m with _ | m <;> simp [Int.tdiv, Int.sign, Int.natAbs]
  · rcases n with _ | n <;> simp [Int.tdiv, Int.sign, Int.natAbs]
  · simp [Int.tdiv, Int.sign, Int.natAbs]

/-- Claim C1: for every non-empty sequence and every target, every string
returned by `findExpressions` is the rendering of a tree from the full-range
enumeration whose leaves are exactly the input elements in their original
order and whose evaluation equals exactly the target. -/
theorem C1_result_strings_sound (nums : List Int) (target : Int)
    (out : List String) (s : String) (hne : nums ≠ [])
    (hout : findExpressions nums target = Except.ok out) (hs : s ∈ out) :
    ∃ t, t ∈ generateExpressions nums 0 ((nums.length : Int) - 1) ∧
      s = t.toString ∧ evaluate t = Except.ok target ∧ literals t = nums := by
  rw [findExpressions] at hout
  have hfe := generateExpressionsFilter_ok_eq target _ out hout
  rw [hfe] at hs
  simp only [List.mem_map, List.mem_filter] at hs
  obtain ⟨t, ⟨htmem, htev⟩, hts⟩ := hs
  refine ⟨t, htmem, hts.symm, of_decide_eq_true htev, ?_⟩
  have h1 : 0 < nums.length := List.length_pos.mpr hne
  rw [generateExpressions] at htmem
  have h2 := literals_genFuel nums _ 0 ((nums.length : Int) - 1)
    le_rfl (by omega) (by omega) t htmem
  have h3 : ((nums.length : Int) - 1 - 0).toNat + 1 = nums.length := by omega
  rw [h2, Int.toNat_zero, List.drop_zero, h3, List.take_length]

/-- Witness for C1 at the spec's concrete scenario `[1, 1]` with target `2`. -/
theorem C1_witness :
    ∃ t, t ∈ generateExpressions [1, 1] 0 (([1, 1].length : Int) - 1) ∧
      "(1+1)" = t.toString ∧ evaluate t = Except.ok 2 ∧ literals t = [1, 1] :=
  C1_result_strings_sound [1, 1] 2 ["(1+1)"] "(1+1)" (by decide) rfl
    (List.mem_singleton.mpr rfl)

/-- Claim C2: a division node whose right subtree evaluates to zero evaluates
to the `INT_MAX` sentinel instead of failing, and consequently
`findExpressions [5, 0]` with the sentinel as target includes `"(5/0)"`. -/
theorem C2_divzero_sentinel (l r : ASTNode) (lv : Int)
    (hl : evaluate l = Except.ok lv) (hr : evaluate r = Except.ok 0) :
    evaluate (ASTNode.op '/' l r) = Except.ok INT_MAX ∧
      findExpressions [5, 0] INT_MAX = Except.ok ["(5/0)"] := by
  constructor
  · rw [evaluate_op_eq '/' l r lv 0 hl hr]; rfl
  · rfl

/-- Witness for C2 at `(5/0)`. -/
theorem C2_witness :
    evaluate (ASTNode.op '/' (ASTNode.num 5) (ASTNode.num 0)) =
        Except.ok INT_MAX ∧
      findExpressions [5, 0] INT_MAX = Except.ok ["(5/0)"] :=
  C2_divzero_sentinel (ASTNode.num 5) (ASTNode.num 0) 5 rfl rfl

/-- Claim C3 counterexample: `findExpressions` on the empty sequence returns
the empty list as a normal success (`Except.ok []`), refuting the claimed
`EmptyInput` failure — the source has no emptiness check at all; the
`size() - 1` end index underflows to `-1` and the enumeration loop simply
never runs. -/
theorem C3_counterexample : findExpressions [] 0 = Except.ok [] := rfl

/-- Claim C3 (amended): for every target, `findExpressions [] target` is a
successful return of the empty sequence, not a defined failure. -/
theorem C3_empty_is_ok (target : Int) :
    findExpressions [] target = Except.ok [] := rfl

/-- Claim C4: the number of trees produced by the enumerator is `1` when
`start = end` and otherwise the sum over the split indices
`i = start + k`, `k < end - start`, of (left count) * (right count) * 4. -/
theorem C4_count_recurrence (nums : List Int) (start e : Int) :
    (generateExpressions nums start e).length =
      if start = e then 1
      else ((List.range (e - start).toNat).map (fun (k : Nat) =>
        (generateExpressions nums start (start + k)).length *
        (generateExpressions nums (start + k + 1) e).length * 4)).sum := by
  rw [generateExpressions_eq]
  split
  · rfl
  · rw [List.length_flatMap]
    refine congrArg List.sum (List.map_congr_left ?_)
    intro k _
    exact combine_length _ _

/-- Claim C5: the enumerator lists trees by ascending split index
(spec-side `specSplitsAscending`), with left trees as the outer iteration,
right trees nested inside, and the operators in the fixed order `+,-,*,/`;
and the filtering pass emits matching strings in that enumeration order. -/
theorem C5_enumeration_order (nums : List Int) (start e target : Int)
    (ts : List ASTNode) (out : List String) :
    (start ≠ e → generateExpressions nums start e =
      (specSplitsAscending start e).flatMap (fun i =>
        (generateExpressions nums start i).flatMap (fun l =>
          (generateExpressions nums (i + 1) e).flatMap (fun r =>
            ['+', '-', '*', '/'].map (fun oper => ASTNode.op oper l r))))) ∧
    (generateExpressionsFilter target ts = Except.ok out →
      out = (ts.filter (fun t => decide (evaluate t = Except.ok target))).map
        ASTNode.toString) := by
  constructor
  · intro hne
    rw [generateExpressions_eq, if_neg hne, specSplitsAscending,
      List.flatMap_map]
    rfl
  · exact generateExpressionsFilter_ok_eq target ts out

/-- Witness for C5 on the range `[0, 1]` of `[1, 2]` with target `3`. -/
theorem C5_witness :
    generateExpressions [1, 2] 0 1 =
      (specSplitsAscending 0 1).flatMap (fun i =>
        (generateExpressions [1, 2] 0 i).flatMap (fun l =>
          (generateExpressions [1, 2] (i + 1) 1).flatMap (fun r =>
            ['+', '-', '*', '/'].map (fun oper => ASTNode.op oper l r)))) ∧
    ["(1+2)"] = ((generateExpressions [1, 2] 0 1).filter
        (fun t => decide (evaluate t = Except.ok 3))).map ASTNode.toString :=
  ⟨(C5_enumeration_order [1, 2] 0 1 3 (generateExpressions [1, 2] 0 1)
      ["(1+2)"]).1 (by decide),
   (C5_enumeration_order [1, 2] 0 1 3 (generateExpressions [1, 2] 0 1)
      ["(1+2)"]).2 rfl⟩

/-- Claim C6 counterexample: the enumerator called with `start = 1 > end = 0`
returns the empty list as a normal result instead of failing with
`InvalidRange` — the source has no range check; the split loop just never
runs. -/
theorem C6_counterexample : generateExpressions [5] 1 0 = [] := rfl

/-- Claim C6 (amended): for every inverted range (`start > end`) the
enumerator silently returns the empty list; no `InvalidRange` condition
exists. -/
theorem C6_inverted_range_is_empty (nums : List Int) (start e : Int)
    (h : e < start) : generateExpressions nums start e = [] := by
  rw [generateExpressions_eq, if_neg (by omega : ¬start = e)]
  have h0 : (e - start).toNat = 0 := by omega
  rw [h0]
  rfl

/-- Witness for the amended C6 at `start = 2`, `end = 0`. -/
theorem C6_witness : generateExpressions [1, 2, 3] 2 0 = [] :=
  C6_inverted_range_is_empty [1, 2, 3] 2 0 (by decide)

/-- Claim C7: on a singleton sequence `[v]`, `findExpressions` returns the
one-element list with the decimal rendering of `v` when `v = target`, and the
empty list otherwise. -/
theorem C7_singleton (v target : Int) :
    findExpressions [v] target =
      Except.ok (if v = target then [Int.repr v] else []) := rfl

/-- Claim C8: `toString` renders a literal as the decimal rendering of its
value and an operator node as `"(" ++ left ++ operator ++ right ++ ")"` —
fully parenthesized, no spaces (the length of the rendering is exactly the
two children's lengths plus the two parentheses and the operator character),
for every operator. -/
theorem C8_toString_format :
    (∀ value : Int, (ASTNode.num value).toString = Int.repr value) ∧
    (∀ (oper : Char) (l r : ASTNode),
      (ASTNode.op oper l r).toString =
        "(" ++ l.toString ++ String.singleton oper ++ r.toString ++ ")" ∧
      ((ASTNode.op oper l r).toString).length =
        l.toString.length + r.toString.length + 3) := by
  refine ⟨fun value => rfl, fun oper l r => ⟨rfl, ?_⟩⟩
  rw [ASTNode.toString]
  have h1 : ("(" : String).length = 1 := rfl
  have h2 : (")" : String).length = 1 := rfl
  have h3 : (String.singleton oper).length = 1 := rfl
  simp only [String.length_append, h1, h2, h3]
  omega

/-- Claim C9: evaluating an operator node whose symbol is outside
`{+,-,*,/}` fails (`Except.error ()`), and that branch is unreachable for
trees produced by the enumerator: every generated tree has all operators in
the fixed set and never evaluates to the error. -/
theorem C9_invalid_operator (oper : Char) (l r : ASTNode) (lv rv : Int)
    (hop : oper ∉ OPERATORS) (hl : evaluate l = Except.ok lv)
    (hr : evaluate r = Except.ok rv) :
    evaluate (ASTNode.op oper l r) = Except.error () ∧
      ∀ (nums : List Int) (start e : Int) (t : ASTNode),
        t ∈ generateExpressions nums start e →
        opsValid t = true ∧ evaluate t ≠ Except.error () := by
  constructor
  · rw [evaluate_op_eq oper l r lv rv hl hr]
    simp only [OPERATORS, List.mem_cons, List.not_mem_nil, or_false,
      not_or] at hop
    obtain ⟨h1, h2, h3, h4⟩ := hop
    split
    · exact absurd rfl h1
    · exact absurd rfl h2
    · exact absurd rfl h3
    · exact absurd rfl h4
    · rfl
  · intro nums start e t ht
    exact evaluate_ne_error_of_mem_gen nums start e t ht

/-- Witness for C9: `%` is rejected; the generated tree `(1+2)` is valid and
evaluates without error. -/
theorem C9_witness :
    evaluate (ASTNode.op '%' (ASTNode.num 1) (ASTNode.num 2)) =
        Except.error () ∧
      opsValid (ASTNode.op '+' (ASTNode.num 1) (ASTNode.num 2)) = true ∧
      evaluate (ASTNode.op '+' (ASTNode.num 1) (ASTNode.num 2)) ≠
        Except.error () :=
  ⟨(C9_invalid_operator '%' (ASTNode.num 1) (ASTNode.num 2) 1 2 (by decide)
      rfl rfl).1,
   (C9_invalid_operator '%' (ASTNode.num 1) (ASTNode.num 2) 1 2 (by decide)
      rfl rfl).2 [1, 2] 0 1 (ASTNode.op '+' (ASTNode.num 1) (ASTNode.num 2))
      (by decide)⟩

/-- Claim C10: division with a nonzero right operand is C++ truncating
division (round toward zero): the result is `sign(l) * sign(r)` times the
quotient of the absolute values; in particular `7 / -2` evaluates to `-3`. -/
theorem C10_truncating_division (l r : ASTNode) (lv rv : Int)
    (hl : evaluate l = Except.ok lv) (hr : evaluate r = Except.ok rv)
    (hrz : rv ≠ 0) :
    evaluate (ASTNode.op '/' l r) =
        Except.ok (lv.sign * rv.sign * ((lv.natAbs / rv.natAbs : Nat) : Int)) ∧
      evaluate (ASTNode.op '/' (ASTNode.num 7) (ASTNode.num (-2))) =
        Except.ok (-3) := by
  constructor
  · rw [evaluate_op_eq '/' l r lv rv hl hr]
    show Except.ok (if rv ≠ 0 then Int.tdiv lv rv else INT_MAX) = _
    rw [if_pos hrz, tdiv_eq_sign_mul]
  · rfl

/-- Witness for C10 at `7 / -2 = -3`. -/
theorem C10_witness :
    evaluate (ASTNode.op '/' (ASTNode.num 7) (ASTNode.num (-2))) =
        Except.ok ((7 : Int).sign * (-2 : Int).sign *
          (((7 : Int).natAbs / (-2 : Int).natAbs : Nat) : Int)) ∧
      evaluate (ASTNode.op '/' (ASTNode.num 7) (ASTNode.num (-2))) =
        Except.ok (-3) :=
  C10_truncating_division (ASTNode.num 7) (ASTNode.num (-2)) 7 (-2) rfl rfl
    (by decide)

end ArithExpr
